import Mathlib

/-!
# Verification of the meandra pipeline engine

Shallow embedding of `meandra` (a Python dependency-driven pipeline engine)
and proofs about its parameter system (`meandra/core/parameters.py`), its
scheduler (`meandra/scheduling/scheduler.py`), its orchestration loop
(`meandra/orchestration/orchestrator.py`, `meandra/core/workflow.py`) and
its state tracker (`meandra/monitoring/state_tracker.py`).

Value model: Python runtime values are drawn from an abstract type `V`
carrying a linear order (used by the numeric bound checks `gt/ge/lt/le`);
the Python sentinel `None` is modelled as `Option.none`, so a slot of type
`Option V` is a Python variable that may hold `None`.  External builtins
that the source calls — `isinstance`, `re.match` — are modelled as opaque
boolean predicates stored in the corresponding field (the source stores a
`type` / pattern string and delegates the actual test to the builtin).
-/

namespace Meandra

/-- Python exception classes raised by the embedded code. -/
inductive PyExc where
  | typeError
  | valueError
  | attributeError
  | keyError (k : String)
deriving DecidableEq

/-- Which constraint field of a `Param` a bound violation refers to
(`gt`, `ge`, `lt`, `le`).  The source's `ValueError` messages name the
violated bound; the tag models that naming. -/
inductive BoundTag where
  | bgt
  | bge
  | blt
  | ble
deriving DecidableEq

/-- Error raised by `Param.validate`, tagged with the check that failed so
that the error "names" the violated constraint as the source's exception
messages do. -/
inductive ParamError where
  /-- `TypeError(f"Expected type {self.param_type}, got {type(value)}.")` -/
  | typeMismatch
  /-- `TypeError` raised by Python when a `None` value is compared with a
  numeric bound (`None > 5` is unorderable). -/
  | noneCompare (tag : BoundTag)
  /-- `ValueError` naming the violated bound (`gt`/`ge`/`lt`/`le`). -/
  | boundViolated (tag : BoundTag)
  /-- `ValueError(f"... does not match the regex pattern ...")` -/
  | regexMismatch
  /-- `ValueError(f"... is not in allowed options ...")` -/
  | notInOptions
  /-- `ValueError(f"... does not pass the validation constraint ...")`,
  tagged with the index of the failing predicate in `validators`. -/
  | validatorFailed (i : Nat)
  /-- `TypeError` raised when `ParameterSet.validate` calls
  `param.validate(param.get_value())` on a `SweepParam`, whose overridden
  `validate(self)` accepts no value argument. -/
  | sweepCallMismatch
deriving DecidableEq

/-- The Python exception class (TypeError vs ValueError) of a
`ParamError`. -/
def ParamError.toPyExc : ParamError → PyExc
  | .typeMismatch => .typeError
  | .noneCompare _ => .typeError
  | .sweepCallMismatch => .typeError
  | _ => .valueError

variable {V : Type}

/-- Embedding of `Param` (`meandra/core/parameters.py`).  `value` is the
runtime slot (initially `None`), `default` the declared default.
`param_type` models the declared type together with Python's `isinstance`
test; `regex` models the pattern together with `re.match(pattern,
str(value))`; both receive the raw candidate (which may be `None`).
`options` is `None` or the non-empty allowed set (`__init__` stores
`set(options) if options else None`). -/
structure Param (V : Type) where
  value : Option V := none
  default : Option V := none
  param_type : Option (Option V → Bool) := none
  gt : Option V := none
  ge : Option V := none
  lt : Option V := none
  le : Option V := none
  regex : Option (Option V → Bool) := none
  options : Option (List V) := none
  validators : List (Option V → Bool) := []
  strict : Bool := true

instance : Inhabited (Param V) := ⟨{}⟩

/-- `if self.param_type and not isinstance(value, self.param_type): raise TypeError(...)` -/
def checkType (p : Param V) (c : Option V) : Option ParamError :=
  match p.param_type with
  | none => none
  | some isinst => if isinst c then none else some .typeMismatch

variable [LinearOrder V]

/-- `if self.gt is not None and not value > self.gt: raise ValueError(...)`
(comparing `None` with the bound raises `TypeError` in Python). -/
def checkGt (p : Param V) (c : Option V) : Option ParamError :=
  match p.gt with
  | none => none
  | some b =>
    match c with
    | none => some (.noneCompare .bgt)
    | some v => if b < v then none else some (.boundViolated .bgt)

/-- `if self.ge is not None and not value >= self.ge: raise ValueError(...)` -/
def checkGe (p : Param V) (c : Option V) : Option ParamError :=
  match p.ge with
  | none => none
  | some b =>
    match c with
    | none => some (.noneCompare .bge)
    | some v => if b ≤ v then none else some (.boundViolated .bge)

/-- `if self.lt is not None and not value < self.lt: raise ValueError(...)` -/
def checkLt (p : Param V) (c : Option V) : Option ParamError :=
  match p.lt with
  | none => none
  | some b =>
    match c with
    | none => some (.noneCompare .blt)
    | some v => if v < b then none else some (.boundViolated .blt)

/-- `if self.le is not None and not value <= self.le: raise ValueError(...)` -/
def checkLe (p : Param V) (c : Option V) : Option ParamError :=
  match p.le with
  | none => none
  | some b =>
    match c with
    | none => some (.noneCompare .ble)
    | some v => if v ≤ b then none else some (.boundViolated .ble)

/-- `if self.regex and not re.match(self.regex, str(value)): raise ValueError(...)`
(an absent — or empty, hence falsy — pattern skips the check; an empty
pattern also matches everything, so collapsing it into `none` is exact). -/
def checkRegex (p : Param V) (c : Option V) : Option ParamError :=
  match p.regex with
  | none => none
  | some m => if m c then none else some .regexMismatch

variable [DecidableEq V]

/-- `if self.options and value not in self.options: raise ValueError(...)`
(Python truthiness: `None` and the empty set both skip the check; a `None`
candidate is simply not a member of the stored value set). -/
def checkOptions (p : Param V) (c : Option V) : Option ParamError :=
  match p.options with
  | none => none
  | some os =>
    if os.isEmpty then none
    else
      match c with
      | none => some .notInOptions
      | some v => if v ∈ os then none else some .notInOptions

/-- `for validator in self.validators: if not validator(value): raise ValueError(...)` —
returns the index of the first failing predicate, if any. -/
def checkValidatorsFrom (fs : List (Option V → Bool)) (c : Option V) (i : Nat) :
    Option ParamError :=
  match fs with
  | [] => none
  | f :: rest => if f c then checkValidatorsFrom rest c (i + 1) else some (.validatorFailed i)

/-- Embedding of `Param.validate` (`parameters.py`, lines 101-139): the
checks run in the source's textual order and the first failing one raises;
if all pass, the function returns `True`. -/
def Param.validate (p : Param V) (c : Option V) : Except ParamError Bool :=
  match checkType p c with
  | some e => .error e
  | none =>
  match checkGt p c with
  | some e => .error e
  | none =>
  match checkGe p c with
  | some e => .error e
  | none =>
  match checkLt p c with
  | some e => .error e
  | none =>
  match checkLe p c with
  | some e => .error e
  | none =>
  match checkRegex p c with
  | some e => .error e
  | none =>
  match checkOptions p c with
  | some e => .error e
  | none =>
  match checkValidatorsFrom p.validators c 0 with
  | some e => .error e
  | none => .ok true

/-- The outcomes of the individual checks, listed in the fixed order the
specification states: type → gt → ge → lt → le → pattern → allowed-set →
predicates.  (Defined independently of `Param.validate`, which chains the
source's `if` statements.) -/
def orderedChecks (p : Param V) (c : Option V) : List (Option ParamError) :=
  [checkType p c, checkGt p c, checkGe p c, checkLt p c, checkLe p c,
   checkRegex p c, checkOptions p c, checkValidatorsFrom p.validators c 0]

/-- `Param.get_value` (lines 147-151): `value` if it is not `None`, else
`default`. -/
def Param.get_value (p : Param V) : Option V :=
  match p.value with
  | some v => some v
  | none => p.default

/-- Embedding of `Param.set_value` (lines 141-145) with Python's mutation
semantics made explicit: the result is the raised exception (if any)
together with the post-state of the object.  `validate` runs before the
assignment `self.value = value`, so an exception leaves the object
unchanged. -/
def Param.set_value (p : Param V) (c : Option V) : Option ParamError × Param V :=
  if p.strict then
    match p.validate c with
    | .error e => (some e, p)
    | .ok _ => (none, { p with value := c })
  else (none, { p with value := c })

/-- An entry of a `ParameterSet`'s `data` dict: a plain `Param` or a
`SweepParam` (a `Param` subclass additionally holding the candidate
sequence `values`). -/
inductive PEntry (V : Type) where
  | param (p : Param V)
  | sweep (p : Param V) (values : List (Option V))

/-- The underlying `Param` of an entry (`SweepParam` inherits all `Param`
fields). -/
def PEntry.toParam : PEntry V → Param V
  | .param p => p
  | .sweep p _ => p

/-- `get_value` on an entry (inherited unchanged by `SweepParam`). -/
def PEntry.get_value (e : PEntry V) : Option V :=
  e.toParam.get_value

/-- `set_value` on an entry.  For a `SweepParam` in strict mode the
inherited `set_value` calls `self.validate(value)`, but the overridden
`SweepParam.validate(self)` accepts no value argument, so the call itself
raises `TypeError` before any assignment; in non-strict mode the value is
stored unchecked. -/
def PEntry.set_value [LinearOrder V] [DecidableEq V] (e : PEntry V) (c : Option V) :
    Option ParamError × PEntry V :=
  match e with
  | .param p =>
    match p.set_value c with
    | (err, p') => (err, .param p')
  | .sweep p vs =>
    if p.strict then (some .sweepCallMismatch, .sweep p vs)
    else (none, .sweep { p with value := c } vs)

/-- A global validator registered via `add_global_validator`, i.e. one
entry of the `global_validators` list of `(validator, targets)` tuples.
The source dispatches on `isinstance(targets, list)` vs
`isinstance(targets, dict)`; the two constructors model that tagged
dispatch.  `vname` models `validator.__name__`, used in the failure
message. -/
inductive GlobalVal (V : Type) where
  /-- `targets` is a list of parameter names, passed positionally:
  `validator(*values)`. -/
  | positional (vname : String) (f : List (Option V) → Bool) (targets : List String)
  /-- `targets` maps argument names to parameter names, passed by keyword:
  `validator(**values)`. -/
  | keyword (vname : String) (f : List (String × Option V) → Bool)
      (targets : List (String × String))

/-- The `__name__` of a global validator. -/
def GlobalVal.vname : GlobalVal V → String
  | .positional n _ _ => n
  | .keyword n _ _ => n

/-- Embedding of `ParameterSet` (value-semantics model): the ordered dict
`data` mapping names to entries, the set-wide `strict` flag and the
`global_validators` list.  (Aliasing between `Param` objects is modelled
separately by the heap model below.) -/
structure ParameterSet (V : Type) where
  data : List (String × PEntry V)
  strict : Bool := true
  global_validators : List (GlobalVal V) := []

/-- A Python `dict` of runtime values: parameter name → value (the value
itself may be `None`). -/
abbrev PyDict (V : Type) := List (String × Option V)

/-- First-match lookup in an ordered dict rendered as an association
list. -/
def dictFind {κ α : Type} [DecidableEq κ] (d : List (κ × α)) (k : κ) : Option α :=
  (d.find? (fun kv => decide (kv.1 = k))).map (·.2)

/-- Python `dict` assignment `d[k] = v`: replace in place when the key
exists, append otherwise (insertion order is preserved). -/
def dictAssign {κ α : Type} [DecidableEq κ] (d : List (κ × α)) (k : κ) (v : α) :
    List (κ × α) :=
  if d.any fun kv => decide (kv.1 = k) then
    d.map fun kv => if kv.1 = k then (k, v) else kv
  else d ++ [(k, v)]

/-- The winning entry between two lookups: the first when present, else
the second (used to state which operand a merged key's entry comes
from). -/
def mergePick {α : Type} (first second : Option α) : Option α :=
  match first with
  | some v => some v
  | none => second

/-- `key in config.values` where `config` is a plain `dict` (the declared
type of `Config` is `Dict[str, Any]`): `config.values` is the *bound
builtin method* `dict.values` (it is not called), and a membership test
against a method object raises `TypeError: argument of type
'builtin_function_or_method' is not iterable`. -/
def dictValuesContains (_k : String) (_config : PyDict V) : Except PyExc Bool :=
  .error .typeError

/-- `config.get(key)`: the stored value, or `None` when absent. -/
def dictGet (config : PyDict V) (k : String) : Option V :=
  (dictFind config k).getD none

/-- The loop body of `ParameterSet.apply_config` (lines 472-493):
`for key, param in self.data.items(): if key in config.values:
param.set_value(config.get(key))`.  The membership test raises
`TypeError` on a `dict` config, so the loop body never proceeds past its
first iteration. -/
def applyConfigLoop [LinearOrder V] [DecidableEq V] (config : PyDict V) :
    List (String × PEntry V) → Except PyExc (List (String × PEntry V))
  | [] => .ok []
  | (k, e) :: rest => do
    let b ← dictValuesContains k config
    let e' ←
      if b then
        match e.set_value (dictGet config k) with
        | (some err, _) => .error err.toPyExc
        | (none, e') => .ok e'
      else .ok e
    let rest' ← applyConfigLoop config rest
    .ok ((k, e') :: rest')

/-- Embedding of `ParameterSet.apply_config`. -/
def applyConfig [LinearOrder V] [DecidableEq V] (s : ParameterSet V) (config : PyDict V) :
    Except PyExc (ParameterSet V) :=
  (applyConfigLoop config s.data).map fun d => { s with data := d }

/-- The sweep entries of a set's data dict: `{k: v.get_values() for k, v
in self.data.items() if isinstance(v, SweepParam)}`. -/
def sweepPairs (d : List (String × PEntry V)) : List (String × List (Option V)) :=
  d.filterMap fun kv =>
    match kv.2 with
    | .sweep _ vs => some (kv.1, vs)
    | .param _ => none

/-- The fixed entries of a set's data dict, resolved: `{k: v.get_value()
for k, v in self.data.items() if not isinstance(v, SweepParam)}`. -/
def staticPairs (d : List (String × PEntry V)) : PyDict V :=
  d.filterMap fun kv =>
    match kv.2 with
    | .param p => some (kv.1, p.get_value)
    | .sweep _ _ => none

/-- `itertools.product(*lists)`: the cartesian product of the lists, the
first list varying slowest (the rightmost factor cycles fastest). -/
def pyProduct : List (List α) → List (List α)
  | [] => [[]]
  | l :: ls => l.flatMap fun x => (pyProduct ls).map (x :: ·)

/-- Embedding of `ParameterSet.generate_sweep_grid` (lines 525-542).
With zero `SweepParam` entries the unpacking
`sweep_keys, sweep_values = zip(*sweep_params.items())` raises
`ValueError` (`zip()` yields nothing to unpack).  Otherwise each
combination produced by `itertools.product` is laid over a copy of the
static params: `config = static_params.copy();
config.update(dict(zip(sweep_keys, combination)))` — the sweep keys are
disjoint from the static keys, so `update` appends them. -/
def generate_sweep_grid (s : ParameterSet V) : Except PyExc (List (PyDict V)) :=
  if (sweepPairs s.data).isEmpty then .error .valueError
  else
    .ok ((pyProduct ((sweepPairs s.data).map Prod.snd)).map fun combination =>
      staticPairs s.data ++ ((sweepPairs s.data).map Prod.fst).zip combination)

/-- The per-`Param` self-check performed by `ParameterSet.validate`:
`param.validate(param.get_value())`, with the raised `TypeError` or
`ValueError` caught.  On a `SweepParam` the call itself raises `TypeError`
(the overridden `validate(self)` takes no value argument), which the same
`except` clause catches. -/
def entrySelfCheck [LinearOrder V] [DecidableEq V] (e : PEntry V) : Option ParamError :=
  match e with
  | .param p =>
    match p.validate p.get_value with
    | .error err => some err
    | .ok _ => none
  | .sweep _ _ => some .sweepCallMismatch

/-- The first (diagnostic) phase of `ParameterSet.validate`: each failing
`Param` is reported (`print(...)`) and skipped, and the sweep continues
with the remaining entries.  The collected reports model the printed
messages, in order. -/
def selfValidationLoop [LinearOrder V] [DecidableEq V] :
    List (String × PEntry V) → List ParamError
  | [] => []
  | (_, e) :: rest =>
    match entrySelfCheck e with
    | some err => err :: selfValidationLoop rest
    | none => selfValidationLoop rest

/-- Error raised by the global phase of `ParameterSet.validate`. -/
inductive GlobalErr where
  /-- `KeyError` from `self.data[t]` when a target name is absent. -/
  | keyError (t : String)
  /-- `ValueError(f"Global validation failed for {validator.__name__}")`. -/
  | globalFailed (vname : String)
deriving DecidableEq

/-- `self.data[t].get_value()`: resolve one target parameter's current
value, raising `KeyError` when the name is absent. -/
def resolveTarget [LinearOrder V] [DecidableEq V] (s : ParameterSet V) (t : String) :
    Except GlobalErr (Option V) :=
  match dictFind s.data t with
  | some e => .ok e.get_value
  | none => .error (.keyError t)

/-- `values = [self.data[t].get_value() for t in targets]`: resolve the
positional targets in order (a missing name raises `KeyError`). -/
def resolveTargets [LinearOrder V] [DecidableEq V] (s : ParameterSet V) :
    List String → Except GlobalErr (List (Option V))
  | [] => .ok []
  | t :: rest => do
    let v ← resolveTarget s t
    let vs ← resolveTargets s rest
    .ok (v :: vs)

/-- `values = {k: self.data[v].get_value() for k, v in targets.items()}`:
resolve the keyword targets, keeping the argument names. -/
def resolveTargetsKw [LinearOrder V] [DecidableEq V] (s : ParameterSet V) :
    List (String × String) → Except GlobalErr (List (String × Option V))
  | [] => .ok []
  | at_ :: rest => do
    let v ← resolveTarget s at_.2
    let vs ← resolveTargetsKw s rest
    .ok ((at_.1, v) :: vs)

/-- Evaluate one global validator: extract the targets' resolved values
(positionally for a list specification, by keyword for a mapping one) and
invoke the predicate. -/
def runGlobalVal [LinearOrder V] [DecidableEq V] (s : ParameterSet V) (gv : GlobalVal V) :
    Except GlobalErr Bool :=
  match gv with
  | .positional _ f targets => do
    let values ← resolveTargets s targets
    .ok (f values)
  | .keyword _ f targets => do
    let values ← resolveTargetsKw s targets
    .ok (f values)

/-- The second (fatal) phase of `ParameterSet.validate`: each global
validator in turn; the first one returning a falsy outcome raises
`ValueError` naming it. -/
def globalValidationLoop [LinearOrder V] [DecidableEq V] (s : ParameterSet V) :
    List (GlobalVal V) → Except GlobalErr Unit
  | [] => .ok ()
  | gv :: rest => do
    let outcome ← runGlobalVal s gv
    if outcome then globalValidationLoop s rest
    else .error (.globalFailed gv.vname)

/-- Embedding of `ParameterSet.validate` (lines 495-523): the non-fatal
per-`Param` sweep runs first and only prints (first component: the
reports, in order); the fatal global phase runs afterwards (second
component: its outcome).  The per-`Param` phase never raises, so the
reports are produced even when a global validator then fails. -/
def validateSet [LinearOrder V] [DecidableEq V] (s : ParameterSet V) :
    List ParamError × Except GlobalErr Unit :=
  (selfValidationLoop s.data, globalValidationLoop s s.global_validators)

/-- A `Param(gt=0)` in (default) strict mode, used as a concrete test
subject. -/
def pGt : Param Int := { gt := some 0 }

/-- The `ParameterSet` of the class docstring's `apply_config` example:
`ParameterSet(param1=Param(default=42))`. -/
def c3Params : ParameterSet Int := { data := [("param1", .param { default := some 42 })] }

/-- An empty `ParameterSet` (its `apply_config` loop body never runs). -/
def c3Empty : ParameterSet Int := { data := [] }

/-- A set with one fixed `Param` and two `SweepParam`s with candidate
sequences of lengths 2 and 3. -/
def c4Set : ParameterSet Int :=
  { data := [("fixed", .param { default := some 10 }),
             ("s1", .sweep {} [some 1, some 2]),
             ("s2", .sweep {} [some 3, some 4, some 5])] }


/-- A Python object in the nested-`ParameterSet` object graph used by
dotted attribute access (`ParameterSet.__getattr__`).  `pynone` is the
`None` object; `int` a plain leaf value; `param` a `Param` object (its
`value` and `default` fields hold arbitrary objects — in particular a
`default` may itself be a `ParameterSet`, which is how `convert` wraps a
nested set); `pset` a `ParameterSet` with its `data` dict and `strict`
flag. -/
inductive NObj where
  | pynone
  | int (n : Int)
  | param (value : NObj) (default : NObj) (strict : Bool)
  | pset (data : List (String × NObj)) (strict : Bool)

/-- `ParameterSet.convert` on an arbitrary object: a `Param` keeps its
identity but has `strict` stamped; anything else — including a nested
`ParameterSet` — becomes `Param(default=value, strict=...)`. -/
def convertN (strict : Bool) : NObj → NObj
  | .param v d _ => .param v d strict
  | o => .param .pynone o strict

/-- `ParameterSet.__init__`: every candidate value goes through
`convert`. -/
def psetN (strict : Bool) (entries : List (String × NObj)) : NObj :=
  .pset (entries.map fun kv => (kv.1, convertN strict kv.2)) strict

/-- `Param.get_value` at the object level: `value` if it is not `None`,
else `default`. -/
def getValueN (value default : NObj) : NObj :=
  match value with
  | .pynone => default
  | v => v

/-- The traversal loop of `ParameterSet.__getattr__` (lines 326-391):
`for key in keys:` — if the current object is a `ParameterSet` containing
`key`, step into `obj.data[key]`; the moment that object is a `Param`,
return its resolved value (remaining keys are not consulted);
otherwise keep walking.  Any miss falls back to `super().__getattr__`,
which raises `AttributeError`.  When the keys are exhausted, the current
object itself is returned. -/
def getattrGo : List String → NObj → Except PyExc NObj
  | [], obj => .ok obj
  | k :: rest, obj =>
    match obj with
    | .pset d _ =>
      match dictFind d k with
      | some o =>
        match o with
        | .param v df _ => .ok (getValueN v df)
        | o2 => getattrGo rest o2
      | none => .error .attributeError
    | _ => .error .attributeError

/-- `keys = name.split(".")` — Python's `str.split` on a single-character
separator, written as structural recursion over the characters so that it
evaluates. -/
def splitDotAux : List Char → List Char → List (List Char)
  | [], acc => [acc.reverse]
  | c :: rest, acc =>
    if c = '.' then acc.reverse :: splitDotAux rest []
    else splitDotAux rest (c :: acc)

/-- `name.split(".")`. -/
def splitDot (name : String) : List String :=
  (splitDotAux name.data []).map fun cs => String.mk cs

/-- `ParameterSet.__getattr__(name)`: split `name` on `"."` and walk. -/
def getattrN (s : NObj) (name : String) : Except PyExc NObj :=
  getattrGo (splitDot name) s

/-- `ParameterSet(hidden_units=Param(default=128))` — the innermost set
of the specification's dotted-access example. -/
def c5HiddenSet : NObj := psetN true [("hidden_units", .param .pynone (.int 128) true)]

/-- `ParameterSet(layers=...)` — the set bound to the name `model`. -/
def c5ModelSet : NObj := psetN true [("layers", c5HiddenSet)]

/-- The outer set `ParameterSet(model=ParameterSet(layers=
ParameterSet(hidden_units=Param(default=128))))`. -/
def c5Params : NObj := psetN true [("model", c5ModelSet)]

/-- A node of a workflow: `meandra/core/node.py` `Node` — `name`, the
callable `func`, the dependency list (modelled by name), and the Python
object identity `id(node)` used by the orchestrator as tracker key. -/
structure PyNode where
  nid : Nat := 0
  name : String := ""
  dependencies : List String := []
  func : String → String := id

/-- `meandra/core/workflow.py` `Workflow`/`workflow`: an ordered
collection of registered nodes. -/
structure PyWorkflow where
  nodes : List PyNode := []

/-- `MockScheduler.resolve_dependencies` (`scheduler.py`, lines 21-24):
`return workflow.nodes` — the registration order, unexamined. -/
def resolve_dependencies (wf : PyWorkflow) : List PyNode :=
  wf.nodes

/-- Whether an ordering places every node after all of its dependencies
(the property the specification requires of the scheduler's output). -/
def respectsDependencies (order : List PyNode) : Bool :=
  order.enum.all fun p =>
    p.2.dependencies.all fun d =>
      order.enum.any fun q => decide (q.2.name = d) && decide (q.1 < p.1)

/-- `MockStateTracker` (`state_tracker.py`): a dict from node id to
state string. -/
structure TrackerS where
  states : List (Nat × String) := []

/-- `MockStateTracker.get_state`: `self.states.get(node_id,
"not_started")`. -/
def get_state (t : TrackerS) (nid : Nat) : String :=
  (dictFind t.states nid).getD "not_started"

/-- `MockStateTracker.update_state`: `self.states[node_id] = state`. -/
def update_state (t : TrackerS) (nid : Nat) (st : String) : TrackerS :=
  ⟨dictAssign t.states nid st⟩

/-- `MockIOHandler.load`: returns the placeholder `"mock_data"` for any
path. -/
def mock_load (_path : String) : String :=
  "mock_data"

/-- The observable outcome of `SchedulingOrchestrator.execute_workflow`:
the Python return value (`ret`), the final tracker state, the
`data_provider.save` log, and the ids of the nodes actually invoked. -/
structure OrchResult where
  ret : Option (List (String × String))
  tracker : TrackerS
  saves : List (String × String)
  invoked : List Nat

/-- One iteration of the orchestrator loop (`orchestrator.py`, lines
44-50): skip when the tracked state is `"completed"`; otherwise load the
placeholder input, execute the node, save the output and mark the node
completed. -/
def executeWorkflowStep (acc : TrackerS × List (String × String) × List Nat)
    (node : PyNode) : TrackerS × List (String × String) × List Nat :=
  let (t, saves, invoked) := acc
  if get_state t node.nid ≠ "completed" then
    let inputs := mock_load "input_path_placeholder"
    let outputs := node.func inputs
    (update_state t node.nid "completed",
     saves ++ [("output_path_placeholder", outputs)],
     invoked ++ [node.nid])
  else (t, saves, invoked)

/-- Embedding of `SchedulingOrchestrator.execute_workflow`
(`orchestrator.py`, lines 42-50): the execution order comes from the
scheduler, each node is skipped or run, and the function body ends
without a `return` statement — the call evaluates to `None` (`ret :=
none`), although the abstract `Orchestrator.execute_workflow` declares a
`Dict[str, Any]` result. -/
def execute_workflow (wf : PyWorkflow) (t : TrackerS) : OrchResult :=
  let execution_order := resolve_dependencies wf
  let final := execution_order.foldl executeWorkflowStep (t, [], [])
  { ret := none, tracker := final.1, saves := final.2.1, invoked := final.2.2 }

/-- `self.params._params` inside `Workflow.execute` (`workflow.py`, line
46): `ParameterSet` has no attribute `_params`, so `__getattr__` runs,
finds no such key, delegates to `super().__getattr__` and raises
`AttributeError`. -/
def underscoreParamsAccess (_s : ParameterSet V) : Except PyExc Unit :=
  .error .attributeError

/-- Embedding of `Workflow.execute` (`workflow.py`, lines 38-49):
`apply_config` runs first (raising `TypeError` on any non-empty set, see
`applyConfig`); if it survives, the first loop iteration evaluates
`self.params._params.items()`, which raises `AttributeError`; only a
workflow with no nodes (and an empty parameter set) returns its empty
result dict. -/
def workflowExecute [LinearOrder V] [DecidableEq V] (params : ParameterSet V)
    (nodes : List PyNode) (config : PyDict V) :
    Except PyExc (List (String × String)) := do
  let ps ← applyConfig params config
  match nodes with
  | [] => .ok []
  | _ :: _ => do
    let _ ← underscoreParamsAccess ps
    .ok []

/-- Node `A` of the specification's three-node example pipeline. -/
def nodeA : PyNode := { nid := 1, name := "A" }

/-- Node `B`, depending on `A`. -/
def nodeB : PyNode := { nid := 2, name := "B", dependencies := ["A"] }

/-- Node `C`, depending on `B`. -/
def nodeC : PyNode := { nid := 3, name := "C", dependencies := ["B"] }

/-- A workflow registering `B` before its dependency `A` (acyclic). -/
def wfBA : PyWorkflow := { nodes := [nodeB, nodeA] }

/-- Node `X`, depending on `Y` — half of a two-node cycle. -/
def nodeX : PyNode := { nid := 4, name := "X", dependencies := ["Y"] }

/-- Node `Y`, depending on `X` — the other half of the cycle. -/
def nodeY : PyNode := { nid := 5, name := "Y", dependencies := ["X"] }

/-- A workflow whose dependency graph is the cycle `X <-> Y`. -/
def wfCycle : PyWorkflow := { nodes := [nodeX, nodeY] }

/-- The pipeline `A -> B -> C` in registration order. -/
def wfABC : PyWorkflow := { nodes := [nodeA, nodeB, nodeC] }

/-- A tracker pre-seeded with `A` and `B` completed. -/
def seededTracker : TrackerS := { states := [(1, "completed"), (2, "completed")] }

/-- The heap of allocated `Param` objects: the index of a `Param` in this
list is its Python object identity.  `ParameterSet`s hold references
(indices) into the heap, so the in-place mutation performed by
`ParameterSet.convert` (`value.strict = self.strict`) is visible to every
set sharing the object. -/
abbrev Heap (V : Type) := List (Param V)

/-- Dereference a heap reference (out-of-range reads yield a default
object; the theorems carry validity hypotheses where it matters). -/
def heapRead (h : Heap V) (r : Nat) : Param V :=
  (h[r]?).getD {}

/-- A candidate value handed to `ParameterSet.convert`: either an
existing `Param` object (a heap reference) or a bare value. -/
inductive RefOrVal (V : Type) where
  | ref (r : Nat)
  | val (v : Option V)

/-- Whether a candidate's reference points into the heap. -/
def entryValid (x : RefOrVal V) (h : Heap V) : Bool :=
  match x with
  | .ref r => decide (r < h.length)
  | .val _ => true

/-- `ParameterSet.convert` (`parameters.py`, lines 307-320) over the
heap: an existing `Param` keeps its identity (same reference) but its
`strict` attribute is overwritten in place; a bare value allocates
`Param(default=value, strict=...)`. -/
def convertH (strict : Bool) (x : RefOrVal V) (h : Heap V) : Nat × Heap V :=
  match x with
  | .ref r => (r, h.set r { heapRead h r with strict := strict })
  | .val v => (h.length, h ++ [{ default := v, strict := strict }])

/-- A set whose Param `p` fails its own `gt` bound at its resolved value
and whose single global validator holds. -/
def c8Set : ParameterSet Int :=
  { data := [("p", .param { default := some 5, gt := some 10 }),
             ("q", .param { default := some 3 })],
    global_validators :=
      [GlobalVal.positional "one_target" (fun vs => decide (vs.length = 1)) ["q"]] }

/-- A set whose single global validator always returns false. -/
def c8SetBad : ParameterSet Int :=
  { data := [("q", .param { default := some 3 })],
    global_validators :=
      [GlobalVal.positional "always_false" (fun _ => false) ["q"]] }

/-- A `ParameterSet` in the heap model: the data dict maps names to heap
references. -/
structure ParameterSetH (V : Type) where
  data : List (String × Nat) := []
  strict : Bool := true

/-- One step of `ParameterSet.__init__`'s
`self.data.update({k: self.convert(v) for k, v in candidates.items()})`. -/
def initStep (strict : Bool) (acc : List (String × Nat) × Heap V)
    (kv : String × RefOrVal V) : List (String × Nat) × Heap V :=
  (dictAssign acc.1 kv.1 (convertH strict kv.2 acc.2).1, (convertH strict kv.2 acc.2).2)

/-- `ParameterSet.__init__(candidates, strict=...)` over the heap: every
candidate is converted (stamping or allocating) and inserted. -/
def initH (strict : Bool) (entries : List (String × RefOrVal V)) (h : Heap V) :
    ParameterSetH V × Heap V :=
  let res := entries.foldl (initStep strict) ([], h)
  ({ data := res.1, strict := strict }, res.2)

/-- `ParameterSet.__setitem__` (lines 322-324): `self.data[key] =
self.convert(value)`. -/
def setitemH (s : ParameterSetH V) (k : String) (x : RefOrVal V) (h : Heap V) :
    ParameterSetH V × Heap V :=
  ({ s with data := dictAssign s.data k (convertH s.strict x h).1 },
   (convertH s.strict x h).2)

/-- `ParameterSet.add` (lines 393-395): `self.data[name] =
self.convert(param)` — the same operation as item assignment. -/
def addH (s : ParameterSetH V) (name : String) (param : RefOrVal V) (h : Heap V) :
    ParameterSetH V × Heap V :=
  ({ s with data := dictAssign s.data name (convertH s.strict param h).1 },
   (convertH s.strict param h).2)

/-- `ParameterSet.override` (lines 401-405): `new_set =
ParameterSet(self.data.copy())` — a fresh set with default `strict=True`,
whose construction re-converts (and hence re-stamps) every copied `Param`
reference — followed by `new_set.update(overrides)`, which funnels each
override through `__setitem__`. -/
def overrideH (s : ParameterSetH V) (ovr : List (String × RefOrVal V)) (h : Heap V) :
    ParameterSetH V × Heap V :=
  let ns := initH true (s.data.map fun kr => (kr.1, RefOrVal.ref kr.2)) h
  ovr.foldl (fun acc kv => setitemH acc.1 kv.1 kv.2 acc.2) ns

/-- `ParameterSet.merge` (lines 544-564): `merged =
ParameterSet(self.data.copy())` — the copy's construction stamps
`strict=True` onto the receiver's `Param` objects in place — then each of
`other`'s entries is written *directly* into `merged.data` (bypassing
`convert`) when its key is absent or `override` is true. -/
def mergeH (a b : ParameterSetH V) (override : Bool) (h : Heap V) :
    ParameterSetH V × Heap V :=
  let m := initH true (a.data.map fun kr => (kr.1, RefOrVal.ref kr.2)) h
  let mdata := b.data.foldl (fun acc kr =>
    if !(acc.any fun kv => decide (kv.1 = kr.1)) || override then
      dictAssign acc kr.1 kr.2
    else acc) m.1.data
  ({ m.1 with data := mdata }, m.2)

/-- Every `Param` directly contained in the set carries the set's own
`strict` flag (the invariant claimed for the stamping behaviour). -/
def stampedAll (s : ParameterSetH V) (h : Heap V) : Prop :=
  ∀ kr ∈ s.data, (heapRead h kr.2).strict = s.strict

/-- All of a set's references point into the heap. -/
def refsValid (s : ParameterSetH V) (h : Heap V) : Prop :=
  ∀ kr ∈ s.data, kr.2 < h.length

/-- A one-`Param` heap whose object was created with `strict=False`. -/
def c6Heap : Heap Int := [{ strict := false }]

/-- `a = ParameterSet(x=..., strict=False)` holding the heap's `Param` 0. -/
def c6A : ParameterSetH Int := { data := [("x", 0)], strict := false }

/-- `b = ParameterSet()` — an empty second operand. -/
def c6B : ParameterSetH Int := { data := [] }


end Meandra

namespace Meandra

variable {V : Type} [LinearOrder V] [DecidableEq V]

theorem validate_eq_firstFailure (p : Param V) (c : Option V) :
    Param.validate p c =
      (match ((orderedChecks p c).filterMap id).head? with
       | some e => .error e
       | none => .ok true) := by
  unfold Param.validate orderedChecks
  cases checkType p c <;>
    cases checkGt p c <;>
      cases checkGe p c <;>
        cases checkLt p c <;>
          cases checkLe p c <;>
            cases checkRegex p c <;>
              cases checkOptions p c <;>
                cases checkValidatorsFrom p.validators c 0 <;>
                  simp [List.filterMap]

/-- On a non-`None` candidate, the individual checks produce neither the
`None`-comparison `TypeError` nor the `SweepParam` call-signature
`TypeError`: these only arise from a `None` candidate or from
`ParameterSet.validate` hitting a `SweepParam`. -/
theorem orderedChecks_some_excluded (p : Param V) (v : V) :
    ∀ r ∈ orderedChecks p (some v),
      (∀ tag, r ≠ some (ParamError.noneCompare tag)) ∧
        r ≠ some ParamError.sweepCallMismatch := by
  have hty : ∀ e, checkType p (some v) = some e → e = ParamError.typeMismatch := by
    unfold checkType; cases p.param_type <;> simp
  have hgt : ∀ e, checkGt p (some v) = some e → e = .boundViolated .bgt := by
    unfold checkGt
    cases p.gt with
    | none => simp
    | some b => by_cases hb : b < v <;> simp [hb]
  have hge : ∀ e, checkGe p (some v) = some e → e = .boundViolated .bge := by
    unfold checkGe
    cases p.ge with
    | none => simp
    | some b => by_cases hb : b ≤ v <;> simp [hb]
  have hlt : ∀ e, checkLt p (some v) = some e → e = .boundViolated .blt := by
    unfold checkLt
    cases p.lt with
    | none => simp
    | some b => by_cases hb : v < b <;> simp [hb]
  have hle : ∀ e, checkLe p (some v) = some e → e = .boundViolated .ble := by
    unfold checkLe
    cases p.le with
    | none => simp
    | some b => by_cases hb : v ≤ b <;> simp [hb]
  have hre : ∀ e, checkRegex p (some v) = some e → e = ParamError.regexMismatch := by
    unfold checkRegex
    cases p.regex with
    | none => simp
    | some m => by_cases hm : m (some v) <;> simp [hm]
  have hop : ∀ e, checkOptions p (some v) = some e → e = ParamError.notInOptions := by
    unfold checkOptions
    cases p.options with
    | none => simp
    | some os => by_cases hos : os.isEmpty <;> by_cases hv : v ∈ os <;> simp [hos, hv]
  have hva : ∀ fs i e, checkValidatorsFrom (V := V) fs (some v) i = some e →
      ∃ j, e = ParamError.validatorFailed j := by
    intro fs
    induction fs with
    | nil => intro i e h; exact absurd h (by simp [checkValidatorsFrom])
    | cons f rest ih =>
      intro i e
      unfold checkValidatorsFrom
      by_cases hf : f (some v)
      · simp only [hf, if_true]; exact ih (i + 1) e
      · simp only [hf, if_false]
        intro h
        injection h with h
        exact ⟨i, h.symm⟩
  intro r hr
  unfold orderedChecks at hr
  simp only [List.mem_cons, List.mem_nil_iff, or_false] at hr
  constructor
  · intro tag hbad
    rcases hr with h | h | h | h | h | h | h | h
    · exact ParamError.noConfusion (hty _ (h.symm.trans hbad))
    · exact ParamError.noConfusion (hgt _ (h.symm.trans hbad))
    · exact ParamError.noConfusion (hge _ (h.symm.trans hbad))
    · exact ParamError.noConfusion (hlt _ (h.symm.trans hbad))
    · exact ParamError.noConfusion (hle _ (h.symm.trans hbad))
    · exact ParamError.noConfusion (hre _ (h.symm.trans hbad))
    · exact ParamError.noConfusion (hop _ (h.symm.trans hbad))
    · rcases hva p.validators 0 _ (h.symm.trans hbad) with ⟨j, hj⟩
      exact ParamError.noConfusion hj
  · intro hbad
    rcases hr with h | h | h | h | h | h | h | h
    · exact ParamError.noConfusion (hty _ (h.symm.trans hbad))
    · exact ParamError.noConfusion (hgt _ (h.symm.trans hbad))
    · exact ParamError.noConfusion (hge _ (h.symm.trans hbad))
    · exact ParamError.noConfusion (hlt _ (h.symm.trans hbad))
    · exact ParamError.noConfusion (hle _ (h.symm.trans hbad))
    · exact ParamError.noConfusion (hre _ (h.symm.trans hbad))
    · exact ParamError.noConfusion (hop _ (h.symm.trans hbad))
    · rcases hva p.validators 0 _ (h.symm.trans hbad) with ⟨j, hj⟩
      exact ParamError.noConfusion hj

/-- C7: For every Param and every candidate value, `Param.validate` runs
the applicable checks in the fixed order type, gt, ge, lt, le, pattern,
allowed-set, predicates; the first failing check raises (a type mismatch
as a type-constraint error, any other as a value-constraint error naming
the violated bound) and no check after the failing one is evaluated; if
every applicable check passes, validate returns true. -/
theorem c7_validate_order (p : Param V) (v : V) :
    (Param.validate p (some v) = .ok true ↔
      ∀ r ∈ orderedChecks p (some v), r = none) ∧
    (∀ e, Param.validate p (some v) = .error e ↔
      ((orderedChecks p (some v)).filterMap id).head? = some e) ∧
    (∀ e, Param.validate p (some v) = .error e →
      (e.toPyExc = .typeError ↔ e = .typeMismatch)) := by
  have hfirst := validate_eq_firstFailure p (some v)
  refine ⟨?_, ?_, ?_⟩
  · rw [hfirst]
    cases hh : ((orderedChecks p (some v)).filterMap id).head? with
    | none =>
      simp only [List.head?_eq_none_iff] at hh
      constructor
      · intro _ r hr
        cases r with
        | none => rfl
        | some e =>
          exfalso
          have hm : e ∈ (orderedChecks p (some v)).filterMap id :=
            List.mem_filterMap.mpr ⟨some e, hr, rfl⟩
          rw [hh] at hm
          exact (List.not_mem_nil e) hm
      · intro _; rfl
    | some e =>
      simp only [hh]
      constructor
      · intro h; exact absurd h (by simp)
      · intro hall
        exfalso
        have hm : e ∈ (orderedChecks p (some v)).filterMap id :=
          List.mem_of_mem_head? hh
        rcases List.mem_filterMap.mp hm with ⟨r, hr, hre⟩
        have hnone := hall r hr
        rw [hnone] at hre
        exact Option.noConfusion hre
  · intro e
    rw [hfirst]
    cases hh : ((orderedChecks p (some v)).filterMap id).head? with
    | none => simp
    | some e' =>
      simp only [hh]
      constructor
      · intro h
        injection h with h
        rw [h]
      · intro h
        rw [Option.some_inj.mp h]
  · intro e herr
    have hmem : e ∈ (orderedChecks p (some v)).filterMap id := by
      rw [hfirst] at herr
      cases hh : ((orderedChecks p (some v)).filterMap id).head? with
      | none => rw [hh] at herr; exact absurd herr (by simp)
      | some e' =>
        rw [hh] at herr
        injection herr with h
        rw [h] at hh
        exact List.mem_of_mem_head? hh
    rcases List.mem_filterMap.mp hmem with ⟨r, hr, hre⟩
    have hre2 : r = some e := hre
    have hexc := orderedChecks_some_excluded p v r hr
    constructor
    · intro hclass
      cases e with
      | typeMismatch => rfl
      | noneCompare tag => exact absurd hre2 (hexc.1 tag)
      | sweepCallMismatch => exact absurd hre2 hexc.2
      | boundViolated tag => exact absurd hclass (by simp [ParamError.toPyExc])
      | regexMismatch => exact absurd hclass (by simp [ParamError.toPyExc])
      | notInOptions => exact absurd hclass (by simp [ParamError.toPyExc])
      | validatorFailed i => exact absurd hclass (by simp [ParamError.toPyExc])
    · intro h
      rw [h]
      rfl

end Meandra

namespace Meandra

variable {V : Type} [LinearOrder V] [DecidableEq V]

/-- C9: For every Param with strict set to true and every candidate value
that fails one of its declared constraints, set_value(candidate) raises
and the Param's stored value is unchanged (validation happens strictly
before the assignment), so get_value() returns the same result as before
the failed call; with strict set to false, set_value stores the candidate
without any check. -/
theorem c9_set_value_strict (p : Param V) (c : Option V) :
    (∀ e, p.strict = true → p.validate c = .error e →
      p.set_value c = (some e, p) ∧ (p.set_value c).2.get_value = p.get_value) ∧
    (p.strict = true → p.validate c = .ok true →
      p.set_value c = (none, { p with value := c })) ∧
    (p.strict = false → p.set_value c = (none, { p with value := c })) := by
  refine ⟨?_, ?_, ?_⟩
  · intro e hs he
    simp [Param.set_value, hs, he]
  · intro hs he
    simp [Param.set_value, hs, he]
  · intro hs
    simp [Param.set_value, hs]

theorem c9_set_value_strict_witness :
    pGt.set_value (some (-5 : Int)) = (some (.boundViolated .bgt), pGt) ∧
      (pGt.set_value (some (-5 : Int))).2.get_value = pGt.get_value :=
  (c9_set_value_strict pGt (some (-5))).1 (.boundViolated .bgt) rfl rfl

theorem c7_validate_order_witness :
    Param.validate pGt (some (-5 : Int)) = .error (.boundViolated .bgt) ∧
      Param.validate pGt (some (3 : Int)) = .ok true := by
  constructor
  · exact ((c7_validate_order pGt (-5)).2.1 (.boundViolated .bgt)).mpr rfl
  · exact (c7_validate_order pGt 3).1.mpr (by decide)

/-- C3 (code_bug evaluation): on the class docstring's own example —
`params = ParameterSet(param1=Param(default=42))`,
`params.apply_config({'param1': 7})` — the membership test
`key in config.values` raises `TypeError`, so `set_value` is never
called; the loop body only avoids the crash when the set is empty. -/
theorem c3_apply_config_crashes :
    applyConfig c3Params [("param1", some 7)] = .error .typeError ∧
      applyConfig c3Empty [("param1", some 7)] = .ok c3Empty := by
  exact ⟨rfl, rfl⟩

theorem selfValidationLoop_eq_filterMap (d : List (String × PEntry V)) :
    selfValidationLoop d = d.filterMap fun kv => entrySelfCheck kv.2 := by
  induction d with
  | nil => rfl
  | cons kv rest ih =>
    obtain ⟨k, e⟩ := kv
    unfold selfValidationLoop
    cases h : entrySelfCheck e <;> simp [List.filterMap_cons, h, ih]

theorem globalValidationLoop_ok (s : ParameterSet V) (gvs : List (GlobalVal V))
    (h : ∀ gv ∈ gvs, runGlobalVal s gv = .ok true) :
    globalValidationLoop s gvs = .ok () := by
  induction gvs with
  | nil => rfl
  | cons gv rest ih =>
    unfold globalValidationLoop
    rw [h gv (List.mem_cons_self gv rest)]
    simpa using ih fun g hg => h g (List.mem_cons_of_mem gv hg)

theorem globalValidationLoop_err (s : ParameterSet V) (pre : List (GlobalVal V))
    (gv : GlobalVal V) (post : List (GlobalVal V))
    (hpre : ∀ g ∈ pre, runGlobalVal s g = .ok true)
    (hgv : runGlobalVal s gv = .ok false) :
    globalValidationLoop s (pre ++ gv :: post) = .error (.globalFailed gv.vname) := by
  induction pre with
  | nil =>
    rw [List.nil_append]
    show (do
      let outcome ← runGlobalVal s gv
      if outcome then globalValidationLoop s post
      else .error (.globalFailed gv.vname)) = _
    rw [hgv]
    rfl
  | cons g rest ih =>
    rw [List.cons_append]
    show (do
      let outcome ← runGlobalVal s g
      if outcome then globalValidationLoop s (rest ++ gv :: post)
      else .error (.globalFailed g.vname)) = _
    rw [hpre g (List.mem_cons_self g rest)]
    simpa using ih fun g' hg' => hpre g' (List.mem_cons_of_mem g hg')

theorem resolveTargets_ok (s : ParameterSet V) (ts : List String)
    (h : ∀ t ∈ ts, (dictFind s.data t).isSome) :
    resolveTargets s ts =
      .ok (ts.map fun t => ((dictFind s.data t).map PEntry.get_value).getD none) := by
  induction ts with
  | nil => rfl
  | cons t rest ih =>
    cases hf : dictFind s.data t with
    | none =>
      exfalso
      have hs := h t (List.mem_cons_self t rest)
      rw [hf] at hs
      simp at hs
    | some e =>
      have hrest := ih fun t' ht' => h t' (List.mem_cons_of_mem t ht')
      show (do
        let v ← resolveTarget s t
        let vs ← resolveTargets s rest
        Except.ok (v :: vs)) = _
      have hres : resolveTarget s t = .ok e.get_value := by
        simp [resolveTarget, hf]
      rw [hrest, hres]
      simp only [List.map_cons, hf, Option.map_some', Option.getD_some]
      rfl

theorem resolveTargetsKw_ok (s : ParameterSet V) (ts : List (String × String))
    (h : ∀ at_ ∈ ts, (dictFind s.data at_.2).isSome) :
    resolveTargetsKw s ts =
      .ok (ts.map fun at_ =>
        (at_.1, ((dictFind s.data at_.2).map PEntry.get_value).getD none)) := by
  induction ts with
  | nil => rfl
  | cons at_ rest ih =>
    cases hf : dictFind s.data at_.2 with
    | none =>
      exfalso
      have hs := h at_ (List.mem_cons_self at_ rest)
      rw [hf] at hs
      simp at hs
    | some e =>
      have hrest := ih fun a ha => h a (List.mem_cons_of_mem at_ ha)
      show (do
        let v ← resolveTarget s at_.2
        let vs ← resolveTargetsKw s rest
        Except.ok ((at_.1, v) :: vs)) = _
      have hres : resolveTarget s at_.2 = .ok e.get_value := by
        simp [resolveTarget, hf]
      rw [hrest, hres]
      simp only [List.map_cons, hf, Option.map_some', Option.getD_some]
      rfl

/-- C8: For every ParameterSet, validate() first checks each contained
Param against its own resolved value non-fatally: a failing Param is
reported and skipped and validation of the remaining Params continues;
afterwards every registered global validator is evaluated on its
targets' resolved values (positionally for a list target specification,
by keyword for a mapping one), and any global validator returning false
makes validate() fail fatally with an error naming that validator. -/
theorem c8_validate_set (s : ParameterSet V) :
    ((validateSet s).1 = s.data.filterMap fun kv => entrySelfCheck kv.2) ∧
    ((∀ gv ∈ s.global_validators, runGlobalVal s gv = .ok true) →
      (validateSet s).2 = .ok ()) ∧
    (∀ pre gv post, s.global_validators = pre ++ gv :: post →
      (∀ g ∈ pre, runGlobalVal s g = .ok true) →
      runGlobalVal s gv = .ok false →
      (validateSet s).2 = .error (.globalFailed gv.vname)) ∧
    (∀ nm f targets, (∀ t ∈ targets, (dictFind s.data t).isSome) →
      runGlobalVal s (.positional nm f targets) =
        .ok (f (targets.map fun t =>
          ((dictFind s.data t).map PEntry.get_value).getD none))) ∧
    (∀ nm f (targets : List (String × String)),
      (∀ at_ ∈ targets, (dictFind s.data at_.2).isSome) →
      runGlobalVal s (.keyword nm f targets) =
        .ok (f (targets.map fun at_ =>
          (at_.1, ((dictFind s.data at_.2).map PEntry.get_value).getD none)))) := by
  refine ⟨selfValidationLoop_eq_filterMap s.data, ?_, ?_, ?_, ?_⟩
  · intro h
    exact globalValidationLoop_ok s s.global_validators h
  · intro pre gv post hsplit hpre hgv
    show globalValidationLoop s s.global_validators = _
    rw [hsplit]
    exact globalValidationLoop_err s pre gv post hpre hgv
  · intro nm f targets h
    show (do
      let values ← resolveTargets s targets
      Except.ok (f values)) = _
    rw [resolveTargets_ok s targets h]
    rfl
  · intro nm f targets h
    show (do
      let values ← resolveTargetsKw s targets
      Except.ok (f values)) = _
    rw [resolveTargetsKw_ok s targets h]
    rfl

end Meandra

namespace Meandra

variable {V : Type} [LinearOrder V] [DecidableEq V]

theorem pyProduct_length {α : Type} (ls : List (List α)) :
    (pyProduct ls).length = (ls.map List.length).prod := by
  induction ls with
  | nil => rfl
  | cons l ls ih =>
    simp only [pyProduct, List.length_flatMap, Function.comp_def, List.length_map]
    rw [List.map_const', List.sum_replicate, smul_eq_mul, ih, List.map_cons, List.prod_cons]

theorem mem_pyProduct {α : Type} (ls : List (List α)) (c : List α) :
    c ∈ pyProduct ls ↔ List.Forall₂ (fun v l => v ∈ l) c ls := by
  induction ls generalizing c with
  | nil =>
    simp only [pyProduct, List.mem_singleton]
    constructor
    · rintro rfl; exact List.Forall₂.nil
    · intro h; cases h; rfl
  | cons l ls ih =>
    simp only [pyProduct, List.mem_flatMap, List.mem_map]
    constructor
    · rintro ⟨x, hx, c', hc', rfl⟩
      exact List.Forall₂.cons hx ((ih c').mp hc')
    · intro h
      cases h with
      | cons hx hrest => exact ⟨_, hx, _, (ih _).mpr hrest, rfl⟩

theorem dictFind_cons {α : Type} (k0 : String) (v0 : α) (d : List (String × α)) (k : String) :
    dictFind ((k0, v0) :: d) k = if k0 = k then some v0 else dictFind d k := by
  unfold dictFind
  by_cases h : k0 = k
  · rw [List.find?_cons_of_pos _ (by simp [h]), if_pos h]
    rfl
  · rw [List.find?_cons_of_neg _ (by simp [h]), if_neg h]

theorem dictFind_mem_of_nodup {α : Type} (d : List (String × α))
    (hnd : (d.map Prod.fst).Nodup) (kv : String × α) (hkv : kv ∈ d) :
    dictFind d kv.1 = some kv.2 := by
  induction d with
  | nil => cases hkv
  | cons hd tl ih =>
    rw [List.map_cons, List.nodup_cons] at hnd
    obtain ⟨k0, v0⟩ := hd
    rcases List.mem_cons.mp hkv with rfl | hmem
    · rw [dictFind_cons, if_pos rfl]
    · have hne : k0 ≠ kv.1 := by
        intro he
        exact hnd.1 (he ▸ List.mem_map.mpr ⟨kv, hmem, rfl⟩)
      rw [dictFind_cons, if_neg hne]
      exact ih hnd.2 hmem

theorem dictFind_append_left {α : Type} (a b : List (String × α)) (k : String) (v : α)
    (h : dictFind a k = some v) : dictFind (a ++ b) k = some v := by
  induction a with
  | nil => exact absurd h (by simp [dictFind])
  | cons hd tl ih =>
    obtain ⟨k0, v0⟩ := hd
    rw [List.cons_append, dictFind_cons]
    rw [dictFind_cons] at h
    by_cases he : k0 = k
    · rw [if_pos he] at h ⊢
      exact h
    · rw [if_neg he] at h ⊢
      exact ih h

theorem dictFind_append_right {α : Type} (a b : List (String × α)) (k : String)
    (h : k ∉ a.map Prod.fst) : dictFind (a ++ b) k = dictFind b k := by
  induction a with
  | nil => rfl
  | cons hd tl ih =>
    obtain ⟨k0, v0⟩ := hd
    rw [List.map_cons, List.mem_cons] at h
    push_neg at h
    rw [List.cons_append, dictFind_cons, if_neg fun he => h.1 he.symm]
    exact ih h.2

theorem filterMap_keys_sublist {β γ : Type} (f : (String × β) → Option (String × γ))
    (hf : ∀ kv w, f kv = some w → w.1 = kv.1) (d : List (String × β)) :
    ((d.filterMap f).map Prod.fst).Sublist (d.map Prod.fst) := by
  induction d with
  | nil => simp
  | cons kv tl ih =>
    rw [List.filterMap_cons]
    cases hw : f kv with
    | none =>
      rw [List.map_cons]
      exact ih.cons _
    | some w =>
      rw [List.map_cons, List.map_cons, hf kv w hw]
      exact ih.cons₂ _

theorem sweepPairs_keys_sublist (d : List (String × PEntry V)) :
    ((sweepPairs d).map Prod.fst).Sublist (d.map Prod.fst) := by
  refine filterMap_keys_sublist _ ?_ d
  intro kv w hw
  cases h : kv.2 with
  | param p => rw [h] at hw; exact absurd hw (by simp)
  | sweep p vs =>
    rw [h] at hw
    simp only [Option.some_inj] at hw
    rw [← hw]

theorem staticPairs_keys_sublist (d : List (String × PEntry V)) :
    ((staticPairs d).map Prod.fst).Sublist (d.map Prod.fst) := by
  refine filterMap_keys_sublist _ ?_ d
  intro kv w hw
  cases h : kv.2 with
  | sweep p vs => rw [h] at hw; exact absurd hw (by simp)
  | param p =>
    rw [h] at hw
    simp only [Option.some_inj] at hw
    rw [← hw]

theorem static_sweep_keys_disjoint (d : List (String × PEntry V))
    (hnd : (d.map Prod.fst).Nodup) :
    ∀ k, k ∈ (staticPairs d).map Prod.fst → k ∉ (sweepPairs d).map Prod.fst := by
  induction d with
  | nil => intro k hk; exact absurd hk (by simp [staticPairs])
  | cons kv tl ih =>
    rw [List.map_cons, List.nodup_cons] at hnd
    obtain ⟨k0, e⟩ := kv
    intro k hk hk2
    cases e with
    | param p =>
      have hstat : staticPairs ((k0, PEntry.param p) :: tl) =
          (k0, p.get_value) :: staticPairs tl := by
        simp [staticPairs, List.filterMap_cons]
      have hswp : sweepPairs ((k0, PEntry.param p) :: tl) = sweepPairs tl := by
        simp [sweepPairs, List.filterMap_cons]
      rw [hstat, List.map_cons, List.mem_cons] at hk
      rw [hswp] at hk2
      rcases hk with rfl | hk
      · exact hnd.1 ((sweepPairs_keys_sublist tl).mem hk2)
      · exact ih hnd.2 k hk hk2
    | sweep p vs =>
      have hstat : staticPairs ((k0, PEntry.sweep p vs) :: tl) = staticPairs tl := by
        simp [staticPairs, List.filterMap_cons]
      have hswp : sweepPairs ((k0, PEntry.sweep p vs) :: tl) =
          (k0, vs) :: sweepPairs tl := by
        simp [sweepPairs, List.filterMap_cons]
      rw [hstat] at hk
      rw [hswp, List.map_cons, List.mem_cons] at hk2
      rcases hk2 with rfl | hk2
      · exact hnd.1 ((staticPairs_keys_sublist tl).mem hk)
      · exact ih hnd.2 k hk hk2

theorem zip_lookup (pairs : List (String × List (Option V))) (c : List (Option V))
    (hnd : (pairs.map Prod.fst).Nodup)
    (hf : List.Forall₂ (fun v l => v ∈ l) c (pairs.map Prod.snd)) :
    ∀ kv ∈ pairs, ∃ v ∈ kv.2, dictFind ((pairs.map Prod.fst).zip c) kv.1 = some v := by
  induction pairs generalizing c with
  | nil => intro kv h; cases h
  | cons hd tl ih =>
    rw [List.map_cons] at hf
    cases hf with
    | cons hv0 hrest =>
      rename_i v0 c'
      rw [List.map_cons, List.nodup_cons] at hnd
      intro kv hkv
      rcases List.mem_cons.mp hkv with rfl | hmem
      · refine ⟨v0, hv0, ?_⟩
        rw [List.map_cons, List.zip_cons_cons, dictFind_cons, if_pos rfl]
      · have hne : hd.1 ≠ kv.1 := by
          intro he
          exact hnd.1 (he ▸ List.mem_map.mpr ⟨kv, hmem, rfl⟩)
        rw [List.map_cons, List.zip_cons_cons, dictFind_cons, if_neg hne]
        exact ih c' hnd.2 hrest kv hmem

/-- C4: For every ParameterSet containing n >= 1 SweepParams with
candidate-sequence lengths l1..ln plus any number of fixed Params,
generate_sweep_grid() returns exactly l1*l2*...*ln configuration
mappings, the cartesian product in order of the candidate sequences, each
mapping also containing every fixed Param's resolved value unchanged; on
a set with zero SweepParam entries it fails. -/
theorem c4_sweep_grid (s : ParameterSet V) (hnd : (s.data.map Prod.fst).Nodup) :
    (sweepPairs s.data = [] → generate_sweep_grid s = .error .valueError) ∧
    (sweepPairs s.data ≠ [] →
      generate_sweep_grid s =
        .ok ((pyProduct ((sweepPairs s.data).map Prod.snd)).map fun combination =>
          staticPairs s.data ++ ((sweepPairs s.data).map Prod.fst).zip combination) ∧
      ∀ grid, generate_sweep_grid s = .ok grid →
        grid.length = ((sweepPairs s.data).map fun kv => kv.2.length).prod ∧
        (∀ cfg ∈ grid,
          (∀ kv ∈ staticPairs s.data, dictFind cfg kv.1 = some kv.2) ∧
          (∀ kv ∈ sweepPairs s.data, ∃ v ∈ kv.2, dictFind cfg kv.1 = some v)) ∧
        (∀ combination,
          List.Forall₂ (fun v l => v ∈ l) combination ((sweepPairs s.data).map Prod.snd) →
          staticPairs s.data ++ ((sweepPairs s.data).map Prod.fst).zip combination ∈ grid)) := by
  constructor
  · intro h
    unfold generate_sweep_grid
    rw [if_pos (by rw [h]; rfl)]
  · intro h
    have hne : ¬(sweepPairs s.data).isEmpty := by
      cases hsp : sweepPairs s.data with
      | nil => exact absurd hsp h
      | cons a l => simp [hsp]
    have hok : generate_sweep_grid s =
        .ok ((pyProduct ((sweepPairs s.data).map Prod.snd)).map fun combination =>
          staticPairs s.data ++ ((sweepPairs s.data).map Prod.fst).zip combination) := by
      unfold generate_sweep_grid
      rw [if_neg hne]
    refine ⟨hok, ?_⟩
    intro grid hgrid
    rw [hok] at hgrid
    have hgrid2 : grid = (pyProduct ((sweepPairs s.data).map Prod.snd)).map
        fun combination =>
          staticPairs s.data ++ ((sweepPairs s.data).map Prod.fst).zip combination :=
      (Except.ok.inj hgrid).symm
    subst hgrid2
    have hsnodup : ((sweepPairs s.data).map Prod.fst).Nodup :=
      hnd.sublist (sweepPairs_keys_sublist s.data)
    have htnodup : ((staticPairs s.data).map Prod.fst).Nodup :=
      hnd.sublist (staticPairs_keys_sublist s.data)
    refine ⟨?_, ?_, ?_⟩
    · rw [List.length_map, pyProduct_length, List.map_map]
      rfl
    · intro cfg hcfg
      rcases List.mem_map.mp hcfg with ⟨combination, hcomb, rfl⟩
      have hforall := (mem_pyProduct _ _).mp hcomb
      constructor
      · intro kv hkv
        exact dictFind_append_left _ _ _ _
          (dictFind_mem_of_nodup (staticPairs s.data) htnodup kv hkv)
      · intro kv hkv
        have hkmem : kv.1 ∈ (sweepPairs s.data).map Prod.fst :=
          List.mem_map.mpr ⟨kv, hkv, rfl⟩
        have hknotstatic : kv.1 ∉ (staticPairs s.data).map Prod.fst := by
          intro hks
          exact static_sweep_keys_disjoint s.data hnd kv.1 hks hkmem
        rcases zip_lookup (sweepPairs s.data) combination hsnodup hforall kv hkv with
          ⟨v, hv, hfind⟩
        refine ⟨v, hv, ?_⟩
        rw [dictFind_append_right _ _ _ hknotstatic]
        exact hfind
    · intro combination hforall
      exact List.mem_map_of_mem _ ((mem_pyProduct _ _).mpr hforall)

theorem c4_sweep_grid_witness :
    (∃ grid, generate_sweep_grid c4Set = .ok grid ∧ grid.length = 6) ∧
      generate_sweep_grid c3Empty = .error .valueError := by
  constructor
  · obtain ⟨hok, hprops⟩ := (c4_sweep_grid c4Set (by decide)).2 (by decide)
    refine ⟨_, hok, ?_⟩
    rw [(hprops _ hok).1]
    rfl
  · exact (c4_sweep_grid c3Empty (by decide)).1 rfl

end Meandra

namespace Meandra

/-- C5 (code_bug evaluation): because `convert` wraps a nested
`ParameterSet` into `Param(default=<set>)`, the dotted read
`getattr(params, "model.layers.hidden_units")` hits a `Param` at the
very first segment and returns the whole nested set bound to `model` —
not `128` — and `getattr(params, "model.missing")` returns that same
set instead of failing. -/
theorem c5_dotted_access :
    getattrN c5Params "model.layers.hidden_units" =
      .ok (.pset [("layers", .param .pynone c5HiddenSet true)] true) ∧
    getattrN c5Params "model.layers.hidden_units" ≠ .ok (.int 128) ∧
    getattrN c5Params "model.missing" =
      .ok (.pset [("layers", .param .pynone c5HiddenSet true)] true) ∧
    (∀ e, getattrN c5Params "model.missing" ≠ .error e) ∧
    getattrN c5Params "missing" = .error .attributeError := by
  have h1 : getattrN c5Params "model.layers.hidden_units" =
      .ok (.pset [("layers", .param .pynone c5HiddenSet true)] true) := rfl
  have h2 : getattrN c5Params "model.missing" =
      .ok (.pset [("layers", .param .pynone c5HiddenSet true)] true) := rfl
  refine ⟨h1, ?_, h2, ?_, rfl⟩
  · intro hbad
    have heq := Except.ok.inj (h1.symm.trans hbad)
    exact NObj.noConfusion heq
  · intro e hbad
    exact Except.noConfusion (h2.symm.trans hbad)

/-- C1 (code_bug evaluation): `MockScheduler.resolve_dependencies`
returns the registration order unexamined.  On the acyclic workflow that
registers `B` (depending on `A`) before `A`, the returned order places
`B` before its dependency, and on the two-node cycle `X <-> Y` it
returns the nodes instead of failing with a cycle error (it is a total
function with no failure path). -/
theorem c1_mock_scheduler :
    resolve_dependencies wfBA = [nodeB, nodeA] ∧
    respectsDependencies (resolve_dependencies wfBA) = false ∧
    resolve_dependencies wfCycle = [nodeX, nodeY] := by
  exact ⟨rfl, rfl, rfl⟩

/-- C2 (code_bug evaluation): on the pipeline `A -> B -> C` with `A` and
`B` pre-seeded as completed, `execute_workflow` invokes only `C` (the
skip logic works) but accumulates no results and returns `None`
(`ret = none`), so no name-to-result mapping for `A`, `B`, `C` is
produced; and `Workflow.execute`, which would build such a mapping,
always raises before finishing — `TypeError` from `apply_config` on a
non-empty set, or `AttributeError` from `self.params._params` once any
node runs. -/
theorem c2_execute_workflow :
    (execute_workflow wfABC seededTracker).ret = none ∧
    (execute_workflow wfABC seededTracker).invoked = [3] ∧
    get_state (execute_workflow wfABC seededTracker).tracker 3 = "completed" ∧
    (execute_workflow wfABC seededTracker).saves =
      [("output_path_placeholder", "mock_data")] ∧
    workflowExecute c3Params [nodeA, nodeB, nodeC] [("param1", some 7)] =
      .error .typeError ∧
    workflowExecute c3Empty [nodeA, nodeB, nodeC] [] = .error .attributeError := by
  exact ⟨rfl, rfl, rfl, rfl, rfl, rfl⟩

/-- C6 (counterexample): the claim "neither call mutates either input
set, including the Param objects they contain" is false —
`a.merge(b, override=False)` on a receiver built with `strict=False`
flips the `strict` flag of `a`'s own `Param` object (heap cell 0) from
`False` to `True`, because the merged copy's construction re-runs
`convert` on the shared object. -/
theorem c6_merge_mutates_receiver :
    (heapRead c6Heap 0).strict = false ∧
      (heapRead (mergeH c6A c6B false c6Heap).2 0).strict = true := by
  exact ⟨rfl, rfl⟩

end Meandra

namespace Meandra

variable {V : Type}

theorem heapRead_set_self (h : Heap V) (r : Nat) (p : Param V) (hr : r < h.length) :
    heapRead (h.set r p) r = p := by
  unfold heapRead
  rw [List.getElem?_set_self', List.getElem?_eq_getElem hr]
  rfl

theorem heapRead_set_other (h : Heap V) (r r' : Nat) (p : Param V) (hne : r' ≠ r) :
    heapRead (h.set r p) r' = heapRead h r' := by
  unfold heapRead
  rw [List.getElem?_set_ne fun he => hne he.symm]

theorem heapRead_oob (h : Heap V) (r : Nat) (hr : h.length ≤ r) :
    heapRead h r = ({} : Param V) := by
  unfold heapRead
  rw [List.getElem?_eq_none hr]
  rfl

theorem heapRead_append_lt (h : Heap V) (p : Param V) (r : Nat) (hr : r < h.length) :
    heapRead (h ++ [p]) r = heapRead h r := by
  unfold heapRead
  rw [List.getElem?_append, if_pos hr]

theorem heapRead_append_last (h : Heap V) (p : Param V) :
    heapRead (h ++ [p]) h.length = p := by
  unfold heapRead
  rw [List.getElem?_concat_length]
  rfl

/-- Stamping `strict := true` commutes with out-of-range reads, because
the default object already carries `strict = true`; in range it is the
plain written-cell read.  (Used where the source always stamps `True`:
`override` and the copy made by `merge`.) -/
theorem heapRead_set_stamp_true (h : Heap V) (r : Nat) :
    heapRead (h.set r { heapRead h r with strict := true }) r =
      { heapRead h r with strict := true } := by
  by_cases hr : r < h.length
  · exact heapRead_set_self h r _ hr
  · rw [List.set_eq_of_length_le (le_of_not_lt hr), heapRead_oob h r (le_of_not_lt hr)]

theorem convertH_length (strict : Bool) (x : RefOrVal V) (h : Heap V) :
    h.length ≤ (convertH strict x h).2.length := by
  cases x with
  | ref r => simp [convertH]
  | val v => simp [convertH]

theorem convertH_stamp (strict : Bool) (x : RefOrVal V) (h : Heap V)
    (hx : entryValid x h = true) :
    (heapRead (convertH strict x h).2 (convertH strict x h).1).strict = strict := by
  cases x with
  | ref r =>
    have hr : r < h.length := by simpa [entryValid] using hx
    show (heapRead (h.set r { heapRead h r with strict := strict }) r).strict = strict
    rw [heapRead_set_self _ _ _ hr]
  | val v =>
    show (heapRead (h ++ [{ default := v, strict := strict }]) h.length).strict = strict
    rw [heapRead_append_last]

theorem convertH_read_cases (strict : Bool) (x : RefOrVal V) (h : Heap V) (r' : Nat)
    (hr' : r' < h.length) :
    heapRead (convertH strict x h).2 r' = heapRead h r' ∨
      heapRead (convertH strict x h).2 r' = { heapRead h r' with strict := strict } := by
  cases x with
  | val v => exact Or.inl (heapRead_append_lt _ _ _ hr')
  | ref r =>
    by_cases hrr : r' = r
    · subst hrr
      exact Or.inr (heapRead_set_self _ _ _ hr')
    · exact Or.inl (heapRead_set_other _ _ _ _ hrr)

theorem convertH_ref_lt (strict : Bool) (x : RefOrVal V) (h : Heap V)
    (hx : entryValid x h = true) :
    (convertH strict x h).1 < (convertH strict x h).2.length := by
  cases x with
  | ref r =>
    have hr : r < h.length := by simpa [entryValid] using hx
    simpa [convertH] using hr
  | val v => simp [convertH]

theorem entryValid_mono (x : RefOrVal V) (h h' : Heap V) (hle : h.length ≤ h'.length)
    (hx : entryValid x h = true) : entryValid x h' = true := by
  cases x with
  | ref r =>
    simp only [entryValid, decide_eq_true_eq] at hx ⊢
    exact lt_of_lt_of_le hx hle
  | val v => rfl

theorem mem_dictAssign {κ α : Type} [DecidableEq κ] (d : List (κ × α)) (k : κ) (v : α) :
    ∀ kv ∈ dictAssign d k v, kv = (k, v) ∨ kv ∈ d := by
  intro kv hkv
  unfold dictAssign at hkv
  by_cases hany : d.any fun kv => decide (kv.1 = k)
  · rw [if_pos hany] at hkv
    rcases List.mem_map.mp hkv with ⟨kv0, hkv0, heq⟩
    by_cases hk : kv0.1 = k
    · rw [if_pos hk] at heq
      exact Or.inl heq.symm
    · rw [if_neg hk] at heq
      exact Or.inr (heq ▸ hkv0)
  · rw [if_neg hany] at hkv
    rcases List.mem_append.mp hkv with hmem | hmem
    · exact Or.inr hmem
    · exact Or.inl (List.mem_singleton.mp hmem)

theorem initFold_invariant (strict : Bool) (entries : List (String × RefOrVal V)) :
    ∀ (acc : List (String × Nat) × Heap V),
    (∀ kr ∈ acc.1, kr.2 < acc.2.length ∧ (heapRead acc.2 kr.2).strict = strict) →
    (∀ kv ∈ entries, entryValid kv.2 acc.2 = true) →
    acc.2.length ≤ (entries.foldl (initStep strict) acc).2.length ∧
    ∀ kr ∈ (entries.foldl (initStep strict) acc).1,
      kr.2 < (entries.foldl (initStep strict) acc).2.length ∧
      (heapRead (entries.foldl (initStep strict) acc).2 kr.2).strict = strict := by
  induction entries with
  | nil => intro acc hacc _; exact ⟨le_refl _, hacc⟩
  | cons kv rest ih =>
    intro acc hacc hval
    rw [List.foldl_cons]
    have hv0 : entryValid kv.2 acc.2 = true := hval kv (List.mem_cons_self kv rest)
    have hstep : ∀ kr ∈ (initStep strict acc kv).1,
        kr.2 < (initStep strict acc kv).2.length ∧
        (heapRead (initStep strict acc kv).2 kr.2).strict = strict := by
      intro kr hkr
      rcases mem_dictAssign acc.1 kv.1 (convertH strict kv.2 acc.2).1 kr hkr with he | hold
      · rw [he]
        exact ⟨convertH_ref_lt strict kv.2 acc.2 hv0, convertH_stamp strict kv.2 acc.2 hv0⟩
      · obtain ⟨hlt, hst⟩ := hacc kr hold
        refine ⟨lt_of_lt_of_le hlt (convertH_length strict kv.2 acc.2), ?_⟩
        show (heapRead (convertH strict kv.2 acc.2).2 kr.2).strict = strict
        rcases convertH_read_cases strict kv.2 acc.2 kr.2 hlt with he | he
        · rw [he]; exact hst
        · rw [he]
    have hvrest : ∀ kv2 ∈ rest, entryValid kv2.2 (initStep strict acc kv).2 = true := by
      intro kv2 hkv2
      exact entryValid_mono kv2.2 acc.2 _ (convertH_length strict kv.2 acc.2)
        (hval kv2 (List.mem_cons_of_mem kv hkv2))
    obtain ⟨hle, hinv⟩ := ih (initStep strict acc kv) hstep hvrest
    exact ⟨le_trans (convertH_length strict kv.2 acc.2) hle, hinv⟩

end Meandra

namespace Meandra

variable {V : Type}

theorem dictContainsKey_iff {α : Type} (d : List (String × α)) (k : String) :
    (d.any fun kv => decide (kv.1 = k)) = true ↔ k ∈ d.map Prod.fst := by
  rw [List.any_eq_true]
  constructor
  · rintro ⟨kv, hkv, hp⟩
    exact List.mem_map.mpr ⟨kv, hkv, of_decide_eq_true hp⟩
  · intro hk
    rcases List.mem_map.mp hk with ⟨kv, hkv, hfst⟩
    exact ⟨kv, hkv, decide_eq_true hfst⟩

theorem dictFind_eq_none_iff {α : Type} (d : List (String × α)) (k : String) :
    dictFind d k = none ↔ k ∉ d.map Prod.fst := by
  unfold dictFind
  rw [Option.map_eq_none', List.find?_eq_none]
  constructor
  · intro h hk
    rcases List.mem_map.mp hk with ⟨kv, hkv, hfst⟩
    exact h kv hkv (decide_eq_true hfst)
  · intro h kv hkv hp
    exact h (List.mem_map.mpr ⟨kv, hkv, of_decide_eq_true hp⟩)

theorem dictFind_map_replace {α : Type} (d : List (String × α)) (k : String) (v : α)
    (hmem : k ∈ d.map Prod.fst) :
    dictFind (d.map fun kv => if kv.1 = k then (k, v) else kv) k = some v := by
  induction d with
  | nil => simp at hmem
  | cons hd tl ih =>
    rw [List.map_cons]
    by_cases hk : hd.1 = k
    · rw [if_pos hk, dictFind_cons, if_pos rfl]
    · rw [if_neg hk]
      have hd2 : dictFind (hd :: (tl.map fun kv => if kv.1 = k then (k, v) else kv)) k =
          dictFind (tl.map fun kv => if kv.1 = k then (k, v) else kv) k := by
        obtain ⟨k0, v0⟩ := hd
        rw [dictFind_cons, if_neg hk]
      rw [hd2]
      apply ih
      rw [List.map_cons, List.mem_cons] at hmem
      rcases hmem with he | hmem
      · exact absurd he.symm hk
      · exact hmem

theorem dictFind_map_replace_ne {α : Type} (d : List (String × α)) (k : String) (v : α)
    (k' : String) (hne : k' ≠ k) :
    dictFind (d.map fun kv => if kv.1 = k then (k, v) else kv) k' = dictFind d k' := by
  induction d with
  | nil => rfl
  | cons hd tl ih =>
    obtain ⟨k0, v0⟩ := hd
    rw [List.map_cons]
    by_cases hk : (k0, v0).1 = k
    · rw [if_pos hk, dictFind_cons, dictFind_cons, if_neg (fun he => hne he.symm)]
      simp only at hk
      rw [if_neg (fun he : k0 = k' => hne (he.symm.trans hk))]
      exact ih
    · rw [if_neg hk, dictFind_cons, dictFind_cons]
      by_cases hk' : k0 = k'
      · rw [if_pos hk', if_pos hk']
      · rw [if_neg hk', if_neg hk']
        exact ih

theorem dictFind_dictAssign_self {α : Type} (d : List (String × α)) (k : String) (v : α) :
    dictFind (dictAssign d k v) k = some v := by
  unfold dictAssign
  by_cases hany : (d.any fun kv => decide (kv.1 = k)) = true
  · rw [if_pos hany]
    exact dictFind_map_replace d k v ((dictContainsKey_iff d k).mp hany)
  · rw [if_neg hany]
    have hnot : k ∉ d.map Prod.fst := fun hk => hany ((dictContainsKey_iff d k).mpr hk)
    rw [dictFind_append_right d [(k, v)] k hnot, dictFind_cons, if_pos rfl]

theorem dictFind_dictAssign_ne {α : Type} (d : List (String × α)) (k : String) (v : α)
    (k' : String) (hne : k' ≠ k) :
    dictFind (dictAssign d k v) k' = dictFind d k' := by
  unfold dictAssign
  by_cases hany : (d.any fun kv => decide (kv.1 = k)) = true
  · rw [if_pos hany]
    exact dictFind_map_replace_ne d k v k' hne
  · rw [if_neg hany]
    cases hf : dictFind d k' with
    | some v0 => exact dictFind_append_left d [(k, v)] k' v0 hf
    | none =>
      rw [dictFind_append_right d [(k, v)] k' ((dictFind_eq_none_iff d k').mp hf),
        dictFind_cons, if_neg (fun he => hne he.symm)]
      rfl

theorem dictFind_isSome_of_mem_keys {α : Type} (d : List (String × α)) (k : String)
    (hk : k ∈ d.map Prod.fst) : (dictFind d k).isSome = true := by
  cases hf : dictFind d k with
  | some v => rfl
  | none => exact absurd hk ((dictFind_eq_none_iff d k).mp hf)

end Meandra

namespace Meandra

variable {V : Type}

theorem initFold_heap_refs (d0 : List (String × Nat)) :
    ∀ (acc : List (String × Nat) × Heap V) (r : Nat),
    ((∃ k, (k, r) ∈ d0) →
      heapRead ((d0.map fun kr => (kr.1, RefOrVal.ref kr.2)).foldl (initStep true) acc).2 r =
        { heapRead acc.2 r with strict := true }) ∧
    ((∀ k, (k, r) ∉ d0) →
      heapRead ((d0.map fun kr => (kr.1, RefOrVal.ref kr.2)).foldl (initStep true) acc).2 r =
        heapRead acc.2 r) := by
  induction d0 with
  | nil =>
    intro acc r
    constructor
    · rintro ⟨k, hk⟩
      exact absurd hk (List.not_mem_nil _)
    · intro _
      rfl
  | cons kr0 tl ih =>
    intro acc r
    rw [List.map_cons, List.foldl_cons]
    have hstep : heapRead (initStep true acc (kr0.1, RefOrVal.ref kr0.2)).2 r =
        (if r = kr0.2 then { heapRead acc.2 r with strict := true } else heapRead acc.2 r) := by
      by_cases hr : r = kr0.2
      · rw [if_pos hr, hr]
        exact heapRead_set_stamp_true acc.2 kr0.2
      · rw [if_neg hr]
        exact heapRead_set_other acc.2 kr0.2 r _ hr
    constructor
    · rintro ⟨k, hk⟩
      by_cases htl : ∃ k', (k', r) ∈ tl
      · rw [(ih (initStep true acc (kr0.1, RefOrVal.ref kr0.2)) r).1 htl, hstep]
        by_cases hr : r = kr0.2
        · rw [if_pos hr]
        · rw [if_neg hr]
      · have hr : r = kr0.2 := by
          rcases List.mem_cons.mp hk with he | hmem
          · exact congrArg Prod.snd he
          · exact absurd ⟨k, hmem⟩ htl
        rw [(ih (initStep true acc (kr0.1, RefOrVal.ref kr0.2)) r).2
          (fun k' hk' => htl ⟨k', hk'⟩), hstep, if_pos hr]
    · intro hnot
      have hr : r ≠ kr0.2 := by
        intro he
        exact hnot kr0.1 (he ▸ List.mem_cons_self kr0 tl)
      have hnotl : ∀ k, (k, r) ∉ tl := fun k hk =>
        hnot k (List.mem_cons_of_mem kr0 hk)
      rw [(ih (initStep true acc (kr0.1, RefOrVal.ref kr0.2)) r).2 hnotl, hstep, if_neg hr]

theorem initFold_data_refs (d0 : List (String × Nat)) :
    ∀ (acc : List (String × Nat) × Heap V),
    ((d0.map fun kr => (kr.1, RefOrVal.ref kr.2)).foldl (initStep true) acc).1 =
      d0.foldl (fun d kr => dictAssign d kr.1 kr.2) acc.1 := by
  induction d0 with
  | nil => intro acc; rfl
  | cons kr0 tl ih =>
    intro acc
    rw [List.map_cons, List.foldl_cons, List.foldl_cons]
    exact ih (initStep true acc (kr0.1, RefOrVal.ref kr0.2))

theorem dictAssign_foldl_fresh :
    ∀ (pairs : List (String × Nat)) (acc : List (String × Nat)),
    (pairs.map Prod.fst).Nodup →
    (∀ k ∈ pairs.map Prod.fst, k ∉ acc.map Prod.fst) →
    pairs.foldl (fun d kr => dictAssign d kr.1 kr.2) acc = acc ++ pairs := by
  intro pairs
  induction pairs with
  | nil => intro acc _ _; simp
  | cons kr0 tl ih =>
    intro acc hnd hfresh
    rw [List.map_cons, List.nodup_cons] at hnd
    rw [List.foldl_cons]
    have hk0 : kr0.1 ∉ acc.map Prod.fst :=
      hfresh kr0.1 (by rw [List.map_cons]; exact List.mem_cons_self _ _)
    have hassign : dictAssign acc kr0.1 kr0.2 = acc ++ [kr0] := by
      unfold dictAssign
      rw [if_neg (fun hany => hk0 ((dictContainsKey_iff acc kr0.1).mp hany))]
    rw [hassign, ih (acc ++ [kr0]) hnd.2 ?_, List.append_assoc]
    · rfl
    · intro k hk
      rw [List.map_append, List.mem_append]
      rintro (hka | hk1)
      · exact hfresh k (by rw [List.map_cons]; exact List.mem_cons_of_mem _ hk) hka
      · simp only [List.map_cons, List.map_nil, List.mem_singleton] at hk1
        exact hnd.1 (hk1 ▸ hk)

theorem initH_data_of_nodup (d0 : List (String × Nat)) (h : Heap V)
    (hnd : (d0.map Prod.fst).Nodup) :
    (initH true (d0.map fun kr => (kr.1, RefOrVal.ref kr.2)) h).1.data = d0 := by
  show ((d0.map fun kr => (kr.1, RefOrVal.ref kr.2)).foldl (initStep true) ([], h)).1 = d0
  rw [initFold_data_refs d0 ([], h)]
  rw [dictAssign_foldl_fresh d0 [] hnd (by intro k _; simp)]
  rfl

theorem mergeFold_lookup {α : Type} (override : Bool) :
    ∀ (bs : List (String × α)) (acc : List (String × α)),
    (bs.map Prod.fst).Nodup →
    ∀ k, dictFind (bs.foldl (fun acc kr =>
        if !(acc.any fun kv => decide (kv.1 = kr.1)) || override then
          dictAssign acc kr.1 kr.2
        else acc) acc) k =
      if override then mergePick (dictFind bs k) (dictFind acc k)
      else mergePick (dictFind acc k) (dictFind bs k) := by
  intro bs
  induction bs with
  | nil =>
    intro acc _ k
    cases override with
    | true =>
      show dictFind acc k = mergePick (none : Option α) (dictFind acc k)
      rfl
    | false =>
      show dictFind acc k = mergePick (dictFind acc k) (dictFind ([] : List (String × α)) k)
      cases hacc : dictFind acc k <;> simp [mergePick, dictFind]
  | cons kr0 tl ih =>
    intro acc hnd k
    rw [List.map_cons, List.nodup_cons] at hnd
    rw [List.foldl_cons]
    obtain ⟨k0, v0⟩ := kr0
    cases override with
    | true =>
      have hcond : (!(acc.any fun kv => decide (kv.1 = (k0, v0).1)) || true) = true := by
        simp
      rw [if_pos hcond, ih (dictAssign acc k0 v0) hnd.2 k]
      simp only [if_true]
      by_cases hk : k = k0
      · subst hk
        have htl : dictFind tl k = none :=
          (dictFind_eq_none_iff tl k).mpr hnd.1
        rw [htl, dictFind_cons, if_pos rfl, dictFind_dictAssign_self]
        rfl
      · rw [dictFind_cons, if_neg (fun he => hk he.symm),
          dictFind_dictAssign_ne acc k0 v0 k hk]
    | false =>
      by_cases hin : (acc.any fun kv => decide (kv.1 = (k0, v0).1)) = true
      · have hcond : (!(acc.any fun kv => decide (kv.1 = (k0, v0).1)) || false) = false := by
          rw [hin]; rfl
        rw [hcond]
        show dictFind (tl.foldl _ acc) k = _
        rw [ih acc hnd.2 k]
        simp only [Bool.false_eq_true, if_false]
        cases hacc : dictFind acc k with
        | some v => rfl
        | none =>
          have hk : k ≠ k0 := by
            intro he
            have hmem : k0 ∈ acc.map Prod.fst := (dictContainsKey_iff acc k0).mp hin
            have hsome : (dictFind acc k).isSome = true :=
              dictFind_isSome_of_mem_keys acc k (he ▸ hmem)
            rw [hacc] at hsome
            exact Bool.noConfusion hsome
          rw [dictFind_cons, if_neg (fun he => hk he.symm)]
      · have hfalse : (acc.any fun kv => decide (kv.1 = (k0, v0).1)) = false := by
          revert hin
          cases acc.any fun kv => decide (kv.1 = (k0, v0).1) <;> simp
        have hcond : (!(acc.any fun kv => decide (kv.1 = (k0, v0).1)) || false) = true := by
          rw [hfalse]
          rfl
        rw [if_pos hcond, ih (dictAssign acc k0 v0) hnd.2 k]
        simp only [Bool.false_eq_true, if_false]
        have hknot : k0 ∉ acc.map Prod.fst :=
          fun hm => hin ((dictContainsKey_iff acc k0).mpr hm)
        by_cases hk : k = k0
        · subst hk
          have hacc : dictFind acc k = none := (dictFind_eq_none_iff acc k).mpr hknot
          rw [hacc, dictFind_dictAssign_self]
          show some v0 = mergePick none (dictFind ((k, v0) :: tl) k)
          rw [dictFind_cons, if_pos rfl]
          rfl
        · rw [dictFind_dictAssign_ne acc k0 v0 k hk,
            dictFind_cons, if_neg (fun he => hk he.symm)]

end Meandra

namespace Meandra

variable {V : Type}

theorem setitemH_preserves (s : ParameterSetH V) (k : String) (x : RefOrVal V) (h : Heap V)
    (hst : stampedAll s h) (hrv : refsValid s h) (hx : entryValid x h = true) :
    stampedAll (setitemH s k x h).1 (setitemH s k x h).2 ∧
      refsValid (setitemH s k x h).1 (setitemH s k x h).2 ∧
      h.length ≤ (setitemH s k x h).2.length := by
  refine ⟨?_, ?_, convertH_length s.strict x h⟩
  · intro kr hkr
    show (heapRead (convertH s.strict x h).2 kr.2).strict = s.strict
    rcases mem_dictAssign s.data k (convertH s.strict x h).1 kr hkr with he | hold
    · rw [he]
      exact convertH_stamp s.strict x h hx
    · have hlt := hrv kr hold
      rcases convertH_read_cases s.strict x h kr.2 hlt with he | he
      · rw [he]
        exact hst kr hold
      · rw [he]
  · intro kr hkr
    show kr.2 < (convertH s.strict x h).2.length
    rcases mem_dictAssign s.data k (convertH s.strict x h).1 kr hkr with he | hold
    · rw [he]
      exact convertH_ref_lt s.strict x h hx
    · exact lt_of_lt_of_le (hrv kr hold) (convertH_length s.strict x h)

theorem setitemFold_preserves :
    ∀ (ovr : List (String × RefOrVal V)) (acc : ParameterSetH V × Heap V),
    stampedAll acc.1 acc.2 → refsValid acc.1 acc.2 →
    (∀ kv ∈ ovr, entryValid kv.2 acc.2 = true) →
    stampedAll (ovr.foldl (fun a kv => setitemH a.1 kv.1 kv.2 a.2) acc).1
      (ovr.foldl (fun a kv => setitemH a.1 kv.1 kv.2 a.2) acc).2 := by
  intro ovr
  induction ovr with
  | nil => intro acc hst _ _; exact hst
  | cons kv rest ih =>
    intro acc hst hrv hval
    rw [List.foldl_cons]
    have hv0 := hval kv (List.mem_cons_self kv rest)
    obtain ⟨hst2, hrv2, hle2⟩ := setitemH_preserves acc.1 kv.1 kv.2 acc.2 hst hrv hv0
    exact ih (setitemH acc.1 kv.1 kv.2 acc.2) hst2 hrv2
      fun kv2 hkv2 => entryValid_mono kv2.2 acc.2 _ hle2
        (hval kv2 (List.mem_cons_of_mem kv hkv2))

/-- C10: After any insertion into a ParameterSet (construction, item
assignment, add, override, or the copy made by merge), every Param
directly contained in the set has its strict flag equal to the set's own
strict flag; this stamp is applied by mutating the inserted Param object
in place, so a Param object shared with another ParameterSet or still
held by the caller has its strict flag overwritten as a side effect of
the insertion. -/
theorem c10_strict_stamping :
    (∀ (strict : Bool) (entries : List (String × RefOrVal V)) (h : Heap V),
      (∀ kv ∈ entries, entryValid kv.2 h = true) →
      stampedAll (initH strict entries h).1 (initH strict entries h).2) ∧
    (∀ (s : ParameterSetH V) (k : String) (x : RefOrVal V) (h : Heap V),
      stampedAll s h → refsValid s h → entryValid x h = true →
      stampedAll (setitemH s k x h).1 (setitemH s k x h).2) ∧
    (∀ (s : ParameterSetH V) (nm : String) (x : RefOrVal V) (h : Heap V),
      stampedAll s h → refsValid s h → entryValid x h = true →
      stampedAll (addH s nm x h).1 (addH s nm x h).2) ∧
    (∀ (s : ParameterSetH V) (ovr : List (String × RefOrVal V)) (h : Heap V),
      refsValid s h → (∀ kv ∈ ovr, entryValid kv.2 h = true) →
      stampedAll (overrideH s ovr h).1 (overrideH s ovr h).2) ∧
    (∀ (a b : ParameterSetH V) (ov : Bool) (h : Heap V),
      ∀ kr ∈ a.data, (heapRead (mergeH a b ov h).2 kr.2).strict = true) ∧
    (∀ (s : ParameterSetH V) (k : String) (r : Nat) (h : Heap V), r < h.length →
      heapRead (setitemH s k (RefOrVal.ref r) h).2 r =
        { heapRead h r with strict := s.strict }) := by
  have hinit : ∀ (strict : Bool) (entries : List (String × RefOrVal V)) (h : Heap V),
      (∀ kv ∈ entries, entryValid kv.2 h = true) →
      stampedAll (initH strict entries h).1 (initH strict entries h).2 ∧
      refsValid (initH strict entries h).1 (initH strict entries h).2 := by
    intro strict entries h hval
    obtain ⟨-, hinv⟩ := initFold_invariant strict entries ([], h)
      (by intro kr hkr; exact absurd hkr (List.not_mem_nil kr)) hval
    exact ⟨fun kr hkr => (hinv kr hkr).2, fun kr hkr => (hinv kr hkr).1⟩
  refine ⟨fun st e h hv => (hinit st e h hv).1, ?_, ?_, ?_, ?_, ?_⟩
  · intro s k x h hst hrv hx
    exact (setitemH_preserves s k x h hst hrv hx).1
  · intro s nm x h hst hrv hx
    exact (setitemH_preserves s nm x h hst hrv hx).1
  · intro s ovr h hrv hval
    have hents : ∀ kv ∈ (s.data.map fun kr => (kr.1, RefOrVal.ref kr.2)),
        entryValid kv.2 h = true := by
      intro kv hkv
      rcases List.mem_map.mp hkv with ⟨kr, hkr, he⟩
      rw [← he]
      simpa [entryValid] using hrv kr hkr
    obtain ⟨hle, hinv⟩ := initFold_invariant true
      (s.data.map fun kr => (kr.1, RefOrVal.ref kr.2)) ([], h)
      (by intro kr hkr; exact absurd hkr (List.not_mem_nil kr)) hents
    have hst0 := (hinit true (s.data.map fun kr => (kr.1, RefOrVal.ref kr.2)) h hents).1
    have hrv0 := (hinit true (s.data.map fun kr => (kr.1, RefOrVal.ref kr.2)) h hents).2
    have hle2 : h.length ≤
        (initH true (s.data.map fun kr => (kr.1, RefOrVal.ref kr.2)) h).2.length := hle
    exact setitemFold_preserves ovr
      (initH true (s.data.map fun kr => (kr.1, RefOrVal.ref kr.2)) h) hst0 hrv0
      fun kv2 hkv2 => entryValid_mono kv2.2 h _ hle2 (hval kv2 hkv2)
  · intro a b ov h kr hkr
    have := (initFold_heap_refs a.data ([], h) kr.2).1 ⟨kr.1, hkr⟩
    show (heapRead ((a.data.map fun kr => (kr.1, RefOrVal.ref kr.2)).foldl
      (initStep true) ([], h)).2 kr.2).strict = true
    rw [this]
  · intro s k r h hr
    show heapRead (h.set r { heapRead h r with strict := s.strict }) r = _
    exact heapRead_set_self h r _ hr

theorem c10_strict_stamping_witness :
    stampedAll (initH false [("x", RefOrVal.ref 0)] c6Heap).1
      (initH false [("x", RefOrVal.ref 0)] c6Heap).2 ∧
    heapRead (setitemH c6A "y" (RefOrVal.ref 0) c6Heap).2 0 =
      { heapRead c6Heap 0 with strict := false } := by
  constructor
  · exact c10_strict_stamping.1 false [("x", RefOrVal.ref 0)] c6Heap (by decide)
  · exact c10_strict_stamping.2.2.2.2.2 c6A "y" 0 c6Heap (by decide)

end Meandra

namespace Meandra

variable {V : Type}

/-- C6 (amended): `a.merge(b, override)` returns a new set (itself in
strict mode `True`) whose key-to-entry map contains all entries of `a`
plus `b`'s entries for keys absent from `a` (`override=False` never
replaces an existing key) or with every overlapping key replaced by `b`'s
entry (`override=True`); the inputs' own key-to-entry maps are not
modified and `Param` objects not owned by the receiver are untouched, but
the call is *not* mutation-free: constructing the merged copy re-converts
the receiver's `Param` objects, overwriting their `strict` flag with
`True` in place. -/
theorem c6_merge_behavior (a b : ParameterSetH V) (ov : Bool) (h : Heap V)
    (ha : (a.data.map Prod.fst).Nodup) (hb : (b.data.map Prod.fst).Nodup) :
    (mergeH a b ov h).1.strict = true ∧
    (∀ k, dictFind (mergeH a b ov h).1.data k =
      if ov then mergePick (dictFind b.data k) (dictFind a.data k)
      else mergePick (dictFind a.data k) (dictFind b.data k)) ∧
    (∀ kr ∈ a.data, heapRead (mergeH a b ov h).2 kr.2 =
      { heapRead h kr.2 with strict := true }) ∧
    (∀ r : Nat, (∀ k, (k, r) ∉ a.data) →
      heapRead (mergeH a b ov h).2 r = heapRead h r) := by
  refine ⟨rfl, ?_, ?_, ?_⟩
  · intro k
    have hdata : (initH true (a.data.map fun kr => (kr.1, RefOrVal.ref kr.2)) h).1.data =
        a.data := initH_data_of_nodup a.data h ha
    show dictFind (b.data.foldl _
      (initH true (a.data.map fun kr => (kr.1, RefOrVal.ref kr.2)) h).1.data) k = _
    rw [hdata]
    exact mergeFold_lookup ov b.data a.data hb k
  · intro kr hkr
    have := (initFold_heap_refs a.data ([], h) kr.2).1 ⟨kr.1, hkr⟩
    exact this
  · intro r hr
    have := (initFold_heap_refs a.data ([], h) r).2 hr
    exact this

theorem c6_merge_behavior_witness :
    dictFind (mergeH c6A c6B false c6Heap).1.data "x" = some 0 ∧
    heapRead (mergeH c6A c6B false c6Heap).2 0 =
      { heapRead c6Heap 0 with strict := true } := by
  obtain ⟨-, hlook, hmut, -⟩ :=
    c6_merge_behavior c6A c6B false c6Heap (by decide) (by decide)
  constructor
  · rw [hlook "x"]
    rfl
  · exact hmut ("x", 0) (by decide)

end Meandra

namespace Meandra

theorem c8_validate_set_witness :
    (validateSet c8Set).1 = [ParamError.boundViolated .bgt] ∧
    (validateSet c8Set).2 = .ok () ∧
    (validateSet c8SetBad).2 = .error (.globalFailed "always_false") := by
  refine ⟨?_, ?_, ?_⟩
  · rw [(c8_validate_set c8Set).1]
    rfl
  · exact (c8_validate_set c8Set).2.1 fun gv hgv => by
      have hgv2 : gv ∈ [GlobalVal.positional "one_target"
          (fun vs => decide (vs.length = 1)) (["q"] : List String)] := hgv
      rw [List.mem_singleton] at hgv2
      subst hgv2
      rfl
  · exact (c8_validate_set c8SetBad).2.2.1
      [] (GlobalVal.positional "always_false" (fun _ => false) ["q"]) [] rfl
      (fun g hg => absurd hg (List.not_mem_nil g)) rfl

end Meandra
